import Mathlib

/-!
Shallow embedding of the discovery / classification / reconciliation pipeline
of the game launcher (source file: src/game_launcher.py), together with
theorems settling the specification's claims against it.

Python string operations are modelled character-wise so that every definition
is executable and kernel-reducible: str.lower, single-character str.replace,
substring containment (the in operator), str.endswith slicing,
os.path.basename, os.path.splitext and code-point lexicographic comparison.
-/

/-- Characterwise lowercase, modelling Python str.lower on the ASCII range
exercised by the source's string constants. -/
def toLowerStr (s : String) : String := String.mk (s.data.map Char.toLower)

/-- Remove every occurrence of one character, modelling Python
str.replace(c, "") for a one-character pattern. -/
def removeChar (c : Char) (s : String) : String :=
  String.mk (s.data.filter (fun x => !(x == c)))

/-- Replace each occurrence of one character by another, modelling Python
str.replace(a, b) for one-character arguments. -/
def replaceChar (a b : Char) (s : String) : String :=
  String.mk (s.data.map (fun x => if x == a then b else x))

/-- Does the first list occur as a leading segment of the second? -/
def startsL : List Char → List Char → Bool
  | [], _ => true
  | _ :: _, [] => false
  | a :: as, b :: bs => a == b && startsL as bs

/-- Does the pattern occur somewhere inside the list (Python: pat in s)? -/
def occursL (pat : List Char) : List Char → Bool
  | [] => startsL pat []
  | c :: cs => startsL pat (c :: cs) || occursL pat cs

/-- Substring containment, modelling the Python expression pat in s. -/
def containsSub (s pat : String) : Bool := occursL pat.data s.data

/-- Suffix check, modelling Python str.endswith. -/
def endsStr (s suffix : String) : Bool :=
  startsL suffix.data.reverse s.data.reverse

/-- Number of Windows path separators in a string, modelling
Python s.count(os.sep) with os.sep a backslash. -/
def countSep (s : String) : Nat := s.data.count '\\'

/-- Last path component, modelling os.path.basename on Windows, which cuts at
the last backslash or forward slash. -/
def basenameStr (s : String) : String :=
  String.mk (s.data.foldl (fun acc c => if c == '\\' || c == '/' then [] else acc ++ [c]) [])

/-- Scan a reversed character list up to the first dot; some rest means an
extension was found and rest is the reversed root. -/
def dropExtRev : List Char → Option (List Char)
  | [] => none
  | c :: cs => if c == '.' then some cs else dropExtRev cs

/-- Root part of a filename, modelling os.path.splitext(filename)[0]: cut at
the last dot unless only dots precede it. -/
def splitextRoot (filename : String) : String :=
  match dropExtRev filename.data.reverse with
  | some rest => if rest.all (fun c => c == '.') then filename else String.mk rest.reverse
  | none => filename

/-- Drop the last n characters, modelling the Python slice name[:-n]. -/
def dropLastChars (n : Nat) (s : String) : String :=
  String.mk (s.data.take (s.data.length - n))

/-- The normalized form used by the classifier: lowercase with spaces,
hyphens and underscores removed (source lines 549-550). -/
def cleanName (s : String) : String :=
  removeChar '_' (removeChar '-' (removeChar ' ' (toLowerStr s)))

/-- Blacklist of filename fragments that are definitely not games
(source lines 553-558). -/
def blacklist : List String :=
  ["uninstall", "install", "setup", "config", "update", "patch", "launcher_",
   "bootstrap", "updater", "patcher", "installer", "unins000", "repair",
   "redist", "vcredist", "directx", "dotnet", "runtime", "framework", "debug",
   "test", "system32", "msi", "dll", "editor", "tool", "utility", "crash"]

/-- High-confidence popular game title fragments (source lines 564-568). -/
def popular_games : List String :=
  ["fortnite", "apex", "valorant", "csgo", "dota", "minecraft", "skyrim",
   "witcher", "gtav", "rdr2", "forza", "fifa", "nba2k", "doom", "halo",
   "metro", "bioshock", "portal", "halflife", "amongus", "hades",
   "stardewvalley", "eldenring", "cyberpunk"]

/-- Recognized platform library path fragments (source lines 575-578). -/
def platform_paths : List String :=
  ["steamapps/common", "epic games", "origin games", "ubisoft", "riot games",
   "battle.net", "gog games", "xbox games", "rockstar games"]

/-- Recognized custom user game roots (source line 585). -/
def custom_paths : List String := ["downloads\\games", "d:\\games", "c:\\games"]

/-- The classifier is_likely_game (source lines 547-592), deciding whether a
(filename, containing path) pair denotes a game. -/
def is_likely_game (filename path : String) : Bool :=
  let filename_clean := cleanName filename
  let path_clean := cleanName path
  if blacklist.any (fun b => containsSub filename_clean b) then false
  else if popular_games.any (fun g => containsSub filename_clean g)
       || popular_games.any (fun g => containsSub path_clean g) then true
  else
    let is_in_platform :=
      platform_paths.any (fun p => containsSub path_clean (replaceChar '/' '\\' p))
    if is_in_platform
       && !(["setup", "launcher", "updater", "uninstall"].any
             (fun b => containsSub filename_clean b)) then true
    else if custom_paths.any (fun c => containsSub path_clean c) then
      if !(["setup", "installer", "config"].any
            (fun b => containsSub filename_clean b)) then
        let parent_dir := toLowerStr (basenameStr path)
        decide (parent_dir.length > 2) && !(["bin", "game", "common"].contains parent_dir)
      else false
    else false

/-- Keyword set marking directories that hold non-game software
(source lines 536-542). -/
def skip_words : List String :=
  ["system", "windows", "program", "files", "data", "temp", "cache", "log",
   "config", "backup", "bin", "lib", "common", "shared", "runtime",
   "framework", "microsoft", "adobe", "google", "mozilla", "chrome", "nodejs",
   "python", "git", "docker", "office", "visual", "studio", "code", "notepad",
   "calculator", "paint", "vlc", "skype", "discord", "obs", "zoom"]

/-- Directory admissibility predicate is_likely_game_directory
(source lines 534-545). -/
def is_likely_game_directory (dirname : String) : Bool :=
  let dirname_lower := cleanName dirname
  !(skip_words.any (fun w => containsSub dirname_lower w))

/-- Known noise suffixes stripped from directory names (source line 524). -/
def noise_suffixes : List String :=
  [" - Copy", " (1)", " (2)", " (3)", " - Shortcut"]

/-- Sequentially strip each noise suffix that is currently at the end of the
name, mirroring the loop at source lines 524-526. -/
def stripNoise (name : String) : String :=
  noise_suffixes.foldl
    (fun n suf => if endsStr n suf then dropLastChars suf.data.length n else n) name

/-- Generic placeholder directory names (source line 529). -/
def generic_names : List String := ["bin", "game", "common", "games", "steamapps"]

/-- Name resolver get_game_name_from_path (source lines 518-532). -/
def get_game_name_from_path (directory filename : String) : String :=
  let dir_name := basenameStr directory
  let name := stripNoise dir_name
  if generic_names.contains (toLowerStr name) then splitextRoot filename else name

/-- A discovered game entry: a name and path dictionary in the source. -/
structure Game where
  name : String
  path : String
deriving DecidableEq, Repr

/-- The repeated candidate guard of the traversal code: the filename ends in
.exe (case-insensitively) and passes the classifier (source lines 489, 508). -/
def exeCandidate (f path : String) : Bool :=
  endsStr (toLowerStr f) (".exe") && is_likely_game f path

example : is_likely_game ("setup.exe") ("C:\\x") = false := by decide
example : is_likely_game ("Minecraft.exe") ("C:\\x") = true := by decide
example : is_likely_game ("mine-craft.exe") ("C:\\x") = true := by decide
example : get_game_name_from_path ("D:\\games\\mine-craft") ("minecraft.exe") = "mine-craft" := by decide
example : get_game_name_from_path ("C:\\x\\bin") ("cool.exe") = "cool" := by decide

/-- A model filesystem directory: its top-level plain files and its named
subdirectories. -/
inductive FSTree where
  | node (files : List String) (subdirs : List (String × FSTree))

/-- Candidates emitted for the plain files of one visited directory
(source lines 488-492). -/
def dirCandidates (path : String) (files : List String) : List Game :=
  files.filterMap (fun f =>
    if exeCandidate f path
    then some { name := get_game_name_from_path path f, path := path ++ "\\" ++ f }
    else none)

mutual

/-- Depth-bounded os.walk of scan_directory_deep (source lines 484-498):
emit the current directory's qualifying files, then descend unless the
current separator count exceeds the root's by more than 2. -/
def osWalk (rootSep : Nat) (path : String) (t : FSTree) : List Game :=
  match t with
  | .node files subdirs =>
    dirCandidates path files ++
      (if countSep path - rootSep > 2 then [] else osWalkChildren rootSep path subdirs)

/-- Walk each named subdirectory in order. -/
def osWalkChildren (rootSep : Nat) (path : String) :
    List (String × FSTree) → List Game
  | [] => []
  | (n, t) :: rest =>
    osWalk rootSep (path ++ "\\" ++ n) t ++ osWalkChildren rootSep path rest

end

/-- Deep scan strategy entry point (source line 484). -/
def scan_directory_deep (rootPath : String) (t : FSTree) : List Game :=
  osWalk (countSep rootPath) rootPath t

/-- The names os.listdir reports for a directory: its plain files and its
subdirectory names (listing order modelled as files first). -/
def listdirNames : FSTree → List String
  | .node files subdirs => files ++ subdirs.map (fun p => p.1)

/-- Shallow handling of one immediate child (source lines 503-514): only
admissible directories are inspected, and the first qualifying name among the
child's entries yields a single candidate. -/
def shallowChildScan (rootPath name : String) (child : FSTree) : List Game :=
  if is_likely_game_directory name then
    let item_path := rootPath ++ "\\" ++ name
    match (listdirNames child).find? (fun f => exeCandidate f item_path) with
    | some f =>
      [{ name := get_game_name_from_path item_path f, path := item_path ++ "\\" ++ f }]
    | none => []
  else []

/-- Shallow scan strategy scan_directory_shallow (source lines 500-516). -/
def scan_directory_shallow (rootPath : String) (t : FSTree) : List Game :=
  match t with
  | .node _files subdirs => subdirs.flatMap (fun p => shallowChildScan rootPath p.1 p.2)

example :
    scan_directory_deep ("C:\\g")
      (.node [] [("a", .node [] [("b", .node [] [("c", .node ["minecraft.exe"] [])])])])
    = [{ name := "c", path := "C:\\g\\a\\b\\c\\minecraft.exe" }] := by decide

example :
    scan_directory_deep ("C:\\g")
      (.node [] [("a", .node []
        [("b", .node [] [("c", .node [] [("d", .node ["minecraft.exe"] [])])])])])
    = [] := by decide

/-- The dedup key of scan_for_games: the name lowercased with the spaces
removed (source line 464). Hyphens and underscores are kept. -/
def dedupKey (g : Game) : String := removeChar ' ' (toLowerStr g.name)

/-- The seen-set loop of scan_for_games (source lines 461-467): keep a
candidate only when its key has not been seen yet. -/
def dedupAux (seen : List String) : List Game → List Game
  | [] => []
  | g :: gs =>
    if seen.contains (dedupKey g) then dedupAux seen gs
    else g :: dedupAux (dedupKey g :: seen) gs

/-- Deduplicated candidate list, first occurrence of each key winning. -/
def dedupGames (gs : List Game) : List Game := dedupAux [] gs

/-- Code-point lexicographic comparison of character lists, modelling
Python string comparison of the sort keys. -/
def charListLe : List Char → List Char → Bool
  | [], _ => true
  | _ :: _, [] => false
  | a :: as, b :: bs =>
    if a.toNat < b.toNat then true
    else if b.toNat < a.toNat then false
    else charListLe as bs

/-- The sort relation of the source: compare lowercased names
(source line 472, key name.lower()). -/
def nameKeyLe (a b : Game) : Bool :=
  charListLe (toLowerStr a.name).data (toLowerStr b.name).data

/-- Stable insertion keeping an existing element before an equal newcomer,
matching the stability of Python sorted. -/
def insertSorted (g : Game) : List Game → List Game
  | [] => [g]
  | h :: t => if nameKeyLe h g then h :: insertSorted g t else g :: h :: t

/-- Stable sort by lowercased name, modelling sorted(games, key name.lower)
at source line 472. -/
def sortByName (l : List Game) : List Game :=
  l.foldl (fun acc g => insertSorted g acc) []

/-- The paths recorded in the deleted set (source line 469). -/
def deletedPaths (deleted : List Game) : List String := deleted.map (fun g => g.path)

/-- Deleted-set suppression filter of scan_for_games (source line 470). -/
def removeDeleted (deleted gs : List Game) : List Game :=
  gs.filter (fun g => !((deletedPaths deleted).contains g.path))

/-- The reconciliation tail of scan_for_games (source lines 460-472):
dedup by key, drop deleted paths, sort by name case-insensitively. -/
def scanReconcile (raw deleted : List Game) : List Game :=
  sortByName (removeDeleted deleted (dedupGames raw))

/-- The platform keywords that select the deep strategy for a root
(source line 446). -/
def platformKeywords : List String :=
  ["steam", "epic", "origin", "ubisoft", "riot", "battle.net", "gog", "games"]

/-- One scan root: its path paired with the model of its on-disk content.
Roots that do not exist are simply absent from the environment. -/
structure ScanEnv where
  roots : List (String × FSTree)
  registry : List Game
deriving Inhabited

/-- Traverse one existing root with the strategy chosen by the keyword test
at source line 446. -/
def scanRoot (p : String × FSTree) : List Game :=
  if platformKeywords.any (fun k => containsSub (toLowerStr p.1) k)
  then scan_directory_deep p.1 p.2
  else scan_directory_shallow p.1 p.2

/-- The ordered raw candidate list of one full scan: all enumerated roots in
traversal order, then the registry contribution (source lines 439-458). -/
def rawCandidates (env : ScanEnv) : List Game :=
  env.roots.flatMap scanRoot ++ env.registry

/-- The orchestrator's observable state: the four in-memory collections, the
single-scan flag, and the stream of published progress notifications. -/
structure LauncherState where
  games : List Game
  favorites : List Game
  deleted_games : List Game
  filtered_games : List Game
  scanning : Bool
  progress : List String
deriving DecidableEq, Repr

/-- A whole-document write of one persisted override collection. -/
inductive SaveEffect where
  | saveFavorites (favs : List Game)
  | saveDeleted (del : List Game)
deriving DecidableEq, Repr

/-- Does an effect rewrite the favorites document? -/
def isFavoritesWrite : SaveEffect → Bool
  | .saveFavorites _ => true
  | .saveDeleted _ => false

/-- The body of scan_for_games (source lines 408-481): collect candidates
from every root and the registry, reconcile, publish wholesale, emit progress
per root, clear the scanning flag, and save nothing. -/
def scan_for_games (env : ScanEnv) (s : LauncherState) :
    LauncherState × List SaveEffect :=
  let gs := scanReconcile (rawCandidates env) s.deleted_games
  ({ s with
      games := gs
      filtered_games := gs
      scanning := false
      progress := s.progress
        ++ env.roots.map (fun r => "Scanning " ++ basenameStr r.1)
        ++ ["Checking registry..."] }, [])

/-- scan_games_thread (source lines 396-406): a no-op while already
scanning, otherwise set the flag, announce, and run the scan pass. -/
def scan_games_thread (env : ScanEnv) (s : LauncherState) :
    LauncherState × List SaveEffect :=
  if s.scanning then (s, [])
  else scan_for_games env
    { s with scanning := true, progress := s.progress ++ ["Initializing..."] }

/-- refresh_games (source lines 310-313): trigger a scan only when idle. -/
def refresh_games (env : ScanEnv) (s : LauncherState) :
    LauncherState × List SaveEffect :=
  if !s.scanning then scan_games_thread env s else (s, [])

/-- populate_favorites_list (source lines 784-788): refresh the favorites
view by dropping favorites whose path is deleted; nothing is persisted. -/
def populate_favorites_list (s : LauncherState) :
    LauncherState × List SaveEffect :=
  ({ s with favorites :=
      s.favorites.filter (fun f => !((deletedPaths s.deleted_games).contains f.path)) },
   [])

/-- toggle_favorite (source lines 812-824): membership is decided by exact
name equality; removal drops every favorite with the game's name, otherwise
the game is appended; the result is persisted. The subsequent view refresh
update_game_lists is modelled separately by populate_favorites_list. -/
def toggle_favorite (s : LauncherState) (game : Game) :
    LauncherState × List SaveEffect :=
  let favorite_names := s.favorites.map (fun f => f.name)
  if favorite_names.contains game.name then
    let favs := s.favorites.filter (fun f => f.name != game.name)
    ({ s with favorites := favs }, [SaveEffect.saveFavorites favs])
  else
    let favs := s.favorites ++ [game]
    ({ s with favorites := favs }, [SaveEffect.saveFavorites favs])

/-- delete_game (source lines 826-843): when the user confirms, append to the
deleted set, drop the path from games, favorites and the filtered view, and
persist both the deleted document and the favorites document. -/
def delete_game (s : LauncherState) (game : Game) (confirmed : Bool) :
    LauncherState × List SaveEffect :=
  if confirmed then
    let deleted := s.deleted_games ++ [game]
    let games := s.games.filter (fun g => g.path != game.path)
    let favs := s.favorites.filter (fun f => f.path != game.path)
    let filtered := s.filtered_games.filter (fun g => g.path != game.path)
    ({ s with
        deleted_games := deleted
        games := games
        favorites := favs
        filtered_games := filtered },
     [SaveEffect.saveDeleted deleted, SaveEffect.saveFavorites favs])
  else (s, [])

/-- restore_game (source lines 344-357): drop the path from the deleted set,
reinsert the entry, re-sort, and persist only the deleted document. -/
def restore_game (s : LauncherState) (game : Game) :
    LauncherState × List SaveEffect :=
  let deleted := s.deleted_games.filter (fun g => g.path != game.path)
  let games := sortByName (s.games ++ [game])
  ({ s with deleted_games := deleted, games := games, filtered_games := games },
   [SaveEffect.saveDeleted deleted])

/-- The starred indicator of a game card (source line 734): any favorite
sharing the name, regardless of path. -/
def card_is_favorite (s : LauncherState) (g : Game) : Bool :=
  s.favorites.any (fun f => f.name == g.name)

/-- load_favorites (source lines 360-368) over the state of the favorites
document: none models a missing file, an error value a malformed one. The
in-memory collection starts empty, so both degenerate cases yield it. -/
def load_favorites : Option (Except String (List Game)) → List Game
  | none => []
  | some (Except.error _) => []
  | some (Except.ok gs) => gs

/-- load_deleted_games (source lines 378-386), identical shape. -/
def load_deleted_games : Option (Except String (List Game)) → List Game
  | none => []
  | some (Except.error _) => []
  | some (Except.ok gs) => gs

/-- The dedup step as the specification words it: keep the first occurrence,
in input order, of each normalized key and discard later duplicates.
Modelled from the spec for the refinement comparison in claim C2. -/
def keepFirstByKey (l : List Game) : List Game :=
  l.foldl (fun acc g =>
    if acc.any (fun h => dedupKey h == dedupKey g) then acc else acc ++ [g]) []

example :
    scanReconcile
      [⟨"Beta", "p1"⟩, ⟨"alpha", "p2"⟩, ⟨"be ta", "p3"⟩, ⟨"gamma", "p4"⟩]
      [⟨"gamma", "p4"⟩]
    = [⟨"alpha", "p2"⟩, ⟨"Beta", "p1"⟩] := by decide

example :
    keepFirstByKey [⟨"Beta", "p1"⟩, ⟨"alpha", "p2"⟩, ⟨"be ta", "p3"⟩]
    = dedupGames [⟨"Beta", "p1"⟩, ⟨"alpha", "p2"⟩, ⟨"be ta", "p3"⟩] := by decide

/-! ### Helper lemmas -/

theorem countSep_append (a b : String) :
    countSep (a ++ b) = countSep a + countSep b := by
  simp [countSep, String.data_append, List.count_append]

theorem countSep_sep : countSep ("\\") = 1 := by decide

theorem insertSorted_perm (g : Game) (l : List Game) :
    List.Perm (insertSorted g l) (g :: l) := by
  induction l with
  | nil => exact List.Perm.refl _
  | cons h t ih =>
    unfold insertSorted
    by_cases hle : nameKeyLe h g = true
    · simp only [if_pos hle]
      exact (List.Perm.cons h ih).trans (List.Perm.swap g h t)
    · simp only [if_neg hle]
      exact List.Perm.refl _

theorem sortFold_perm (l acc : List Game) :
    List.Perm (l.foldl (fun a g => insertSorted g a) acc) (acc ++ l) := by
  induction l generalizing acc with
  | nil => simp
  | cons g gs ih =>
    simp only [List.foldl_cons]
    have h1 := ih (insertSorted g acc)
    have h3 : List.Perm (insertSorted g acc ++ gs) ((g :: acc) ++ gs) :=
      (insertSorted_perm g acc).append_right gs
    exact h1.trans (h3.trans List.perm_middle.symm)

theorem sortByName_perm (l : List Game) : List.Perm (sortByName l) l := by
  simpa using sortFold_perm l []

theorem mem_sortByName {x : Game} {l : List Game} :
    x ∈ sortByName l ↔ x ∈ l :=
  (sortByName_perm l).mem_iff

theorem bool_ne_true {b : Bool} (h : b = false) : ¬ b = true :=
  fun hb => Bool.noConfusion (h.symm.trans hb)

theorem beqStr_comm (a b : String) : (a == b) = (b == a) := by
  by_cases h : a = b
  · simp [h]
  · simp [h, Ne.symm h]

theorem dedupAux_not_seen {c : Game} :
    ∀ (l : List Game) (seen : List String),
      c ∈ dedupAux seen l → seen.contains (dedupKey c) = false := by
  intro l
  induction l with
  | nil => intro seen h; simp [dedupAux] at h
  | cons g gs ih =>
    intro seen h
    simp only [dedupAux] at h
    by_cases hc : seen.contains (dedupKey g) = true
    · rw [if_pos hc] at h
      exact ih seen h
    · rw [if_neg hc] at h
      rcases List.mem_cons.mp h with rfl | htail
      · simpa using hc
      · have h2 := ih _ htail
        simp only [List.contains_cons, Bool.or_eq_false_iff] at h2
        exact h2.2

theorem dedupAux_pairwise :
    ∀ (l : List Game) (seen : List String),
      (dedupAux seen l).Pairwise (fun a b => dedupKey a ≠ dedupKey b) := by
  intro l
  induction l with
  | nil => intro seen; simp [dedupAux]
  | cons g gs ih =>
    intro seen
    simp only [dedupAux]
    by_cases hc : seen.contains (dedupKey g) = true
    · rw [if_pos hc]
      exact ih seen
    · rw [if_neg hc]
      refine List.pairwise_cons.mpr ⟨?_, ih _⟩
      intro b hb heq
      have h2 := dedupAux_not_seen _ _ hb
      simp only [List.contains_cons, Bool.or_eq_false_iff] at h2
      rw [← heq] at h2
      simp at h2

theorem dedupAux_enum_wins :
    ∀ (enum reg : List Game) (seen : List String) (k : String) (c : Game),
      (∃ a ∈ enum, dedupKey a = k) → seen.contains k = false →
      c ∈ dedupAux seen (enum ++ reg) → dedupKey c = k → c ∈ enum := by
  intro enum
  induction enum with
  | nil =>
    intro reg seen k c hex
    simp at hex
  | cons a rest ih =>
    intro reg seen k c hex hsk hmem hkc
    simp only [List.cons_append, dedupAux] at hmem
    by_cases hc : seen.contains (dedupKey a) = true
    · rw [if_pos hc] at hmem
      have hak : dedupKey a ≠ k := by
        intro h
        rw [h, hsk] at hc
        exact Bool.false_ne_true hc
      obtain ⟨a', ha', hka'⟩ := hex
      rcases List.mem_cons.mp ha' with rfl | harest
      · exact absurd hka' hak
      · exact List.mem_cons_of_mem _ (ih reg seen k c ⟨a', harest, hka'⟩ hsk hmem hkc)
    · rw [if_neg hc] at hmem
      rcases List.mem_cons.mp hmem with rfl | htail
      · exact List.mem_cons_self _ _
      · by_cases hak : dedupKey a = k
        · have h2 := dedupAux_not_seen _ _ htail
          rw [hak] at h2
          simp only [List.contains_cons, Bool.or_eq_false_iff] at h2
          rw [hkc] at h2
          simp at h2
        · obtain ⟨a', ha', hka'⟩ := hex
          rcases List.mem_cons.mp ha' with rfl | harest
          · exact absurd hka' hak
          · have hsk' : (dedupKey a :: seen).contains k = false := by
              simp only [List.contains_cons, Bool.or_eq_false_iff]
              exact ⟨beq_eq_false_iff_ne.mpr (Ne.symm hak), hsk⟩
            exact List.mem_cons_of_mem _
              (ih reg (dedupKey a :: seen) k c ⟨a', harest, hka'⟩ hsk' htail hkc)

theorem foldl_keepFirst_eq (l : List Game) :
    ∀ (acc : List Game) (seen : List String),
      (∀ k, seen.contains k = acc.any (fun h => dedupKey h == k)) →
      l.foldl (fun acc g =>
          if acc.any (fun h => dedupKey h == dedupKey g) then acc else acc ++ [g]) acc
        = acc ++ dedupAux seen l := by
  induction l with
  | nil =>
    intro acc seen _
    simp [dedupAux]
  | cons g gs ih =>
    intro acc seen hinv
    simp only [List.foldl_cons, dedupAux]
    by_cases hc : seen.contains (dedupKey g) = true
    · have hacc : acc.any (fun h => dedupKey h == dedupKey g) = true := by
        rw [← hinv]; exact hc
      rw [if_pos hacc, if_pos hc]
      exact ih acc seen hinv
    · have hcf : seen.contains (dedupKey g) = false := by simpa using hc
      have hacc : acc.any (fun h => dedupKey h == dedupKey g) = false := by
        rw [← hinv]; exact hcf
      rw [if_neg (by simp [hacc]), if_neg hc]
      have hinv' : ∀ k, (dedupKey g :: seen).contains k
          = (acc ++ [g]).any (fun h => dedupKey h == k) := by
        intro k
        simp only [List.contains_cons, List.any_append, List.any_cons, List.any_nil,
          Bool.or_false]
        rw [hinv k, beqStr_comm]
        exact Bool.or_comm _ _
      rw [ih (acc ++ [g]) (dedupKey g :: seen) hinv']
      simp

theorem keepFirstByKey_eq_dedupGames (l : List Game) :
    keepFirstByKey l = dedupGames l := by
  unfold keepFirstByKey dedupGames
  simpa using foldl_keepFirst_eq l [] [] (by intro k; simp)

theorem charListLe_total :
    ∀ (as bs : List Char), charListLe as bs = true ∨ charListLe bs as = true := by
  intro as
  induction as with
  | nil => intro bs; left; rfl
  | cons a as ih =>
    intro bs
    cases bs with
    | nil => right; rfl
    | cons b bs =>
      by_cases h1 : a.toNat < b.toNat
      · left; simp [charListLe, h1]
      · by_cases h2 : b.toNat < a.toNat
        · right; simp [charListLe, h2]
        · simpa [charListLe, h1, h2] using ih bs

theorem charListLe_trans :
    ∀ (as bs cs : List Char), charListLe as bs = true → charListLe bs cs = true →
      charListLe as cs = true := by
  intro as
  induction as with
  | nil => intro bs cs _ _; rfl
  | cons a as ih =>
    intro bs cs h1 h2
    cases bs with
    | nil => simp [charListLe] at h1
    | cons b bs =>
      cases cs with
      | nil => simp [charListLe] at h2
      | cons c cs =>
        by_cases hab : a.toNat < b.toNat
        · by_cases hbc : b.toNat < c.toNat
          · have : a.toNat < c.toNat := by omega
            simp [charListLe, this]
          · by_cases hcb : c.toNat < b.toNat
            · simp [charListLe, hbc, hcb] at h2
            · have : a.toNat < c.toNat := by omega
              simp [charListLe, this]
        · by_cases hba : b.toNat < a.toNat
          · simp [charListLe, hab, hba] at h1
          · simp only [charListLe, if_neg hab, if_neg hba] at h1
            by_cases hbc : b.toNat < c.toNat
            · have : a.toNat < c.toNat := by omega
              simp [charListLe, this]
            · by_cases hcb : c.toNat < b.toNat
              · simp [charListLe, hbc, hcb] at h2
              · simp only [charListLe, if_neg hbc, if_neg hcb] at h2
                have h3 : ¬ a.toNat < c.toNat := by omega
                have h4 : ¬ c.toNat < a.toNat := by omega
                simp only [charListLe, if_neg h3, if_neg h4]
                exact ih bs cs h1 h2

theorem nameKeyLe_total (a b : Game) :
    nameKeyLe a b = true ∨ nameKeyLe b a = true :=
  charListLe_total _ _

theorem nameKeyLe_trans {a b c : Game} (h1 : nameKeyLe a b = true)
    (h2 : nameKeyLe b c = true) : nameKeyLe a c = true :=
  charListLe_trans _ _ _ h1 h2

theorem pairwise_insertSorted {g : Game} :
    ∀ {l : List Game}, l.Pairwise (fun a b => nameKeyLe a b = true) →
      (insertSorted g l).Pairwise (fun a b => nameKeyLe a b = true) := by
  intro l
  induction l with
  | nil =>
    intro _
    simp [insertSorted]
  | cons h t ih =>
    intro hp
    rw [List.pairwise_cons] at hp
    unfold insertSorted
    by_cases hle : nameKeyLe h g = true
    · rw [if_pos hle, List.pairwise_cons]
      refine ⟨?_, ih hp.2⟩
      intro b hb
      have hmem : b = g ∨ b ∈ t := by
        have := (insertSorted_perm g t).mem_iff.mp hb
        simpa using this
      rcases hmem with rfl | hbt
      · exact hle
      · exact hp.1 b hbt
    · rw [if_neg hle, List.pairwise_cons]
      have hgh : nameKeyLe g h = true := by
        rcases nameKeyLe_total g h with h1 | h1
        · exact h1
        · exact absurd h1 hle
      refine ⟨?_, List.pairwise_cons.mpr hp⟩
      intro b hb
      rcases List.mem_cons.mp hb with rfl | hbt
      · exact hgh
      · exact nameKeyLe_trans hgh (hp.1 b hbt)

theorem sortByName_pairwise (l : List Game) :
    (sortByName l).Pairwise (fun a b => nameKeyLe a b = true) := by
  suffices h : ∀ (l acc : List Game),
      acc.Pairwise (fun a b => nameKeyLe a b = true) →
      (l.foldl (fun a g => insertSorted g a) acc).Pairwise
        (fun a b => nameKeyLe a b = true) by
    exact h l [] (by simp)
  intro l
  induction l with
  | nil => intro acc hacc; simpa using hacc
  | cons g gs ih =>
    intro acc hacc
    simp only [List.foldl_cons]
    exact ih (insertSorted g acc) (pairwise_insertSorted hacc)

/-! ### Claim theorems -/

/-- Claim C6: for every containing path, setup.exe is rejected while
Minecraft.exe and mine-craft.exe are accepted, because normalization
collapses case and separator variants before the rules apply. -/
theorem c6_classifier_determinism (p : String) :
    is_likely_game ("setup.exe") p = false
    ∧ is_likely_game ("Minecraft.exe") p = true
    ∧ is_likely_game ("mine-craft.exe") p = true :=
  ⟨rfl, rfl, rfl⟩

/-- Witness for C6 at a concrete path. -/
theorem c6_witness :
    is_likely_game ("setup.exe") ("C:\\w") = false
    ∧ is_likely_game ("Minecraft.exe") ("C:\\w") = true
    ∧ is_likely_game ("mine-craft.exe") ("C:\\w") = true :=
  c6_classifier_determinism ("C:\\w")

/-- Claim C9: loading either override document yields the empty collection
when the file is missing and when its contents fail to deserialize; the
loader is total, so no error reaches the caller. -/
theorem c9_load_robustness :
    load_favorites none = []
    ∧ (∀ e, load_favorites (some (Except.error e)) = [])
    ∧ load_deleted_games none = []
    ∧ (∀ e, load_deleted_games (some (Except.error e)) = []) :=
  ⟨rfl, fun _ => rfl, rfl, fun _ => rfl⟩

/-- Witness for C9 at a concrete malformed-document error. -/
theorem c9_witness :
    load_favorites (some (Except.error ("not json"))) = []
    ∧ load_deleted_games (some (Except.error ("not json"))) = [] :=
  ⟨c9_load_robustness.2.1 ("not json"), c9_load_robustness.2.2.2 ("not json")⟩

/-- Claim C7: while the scanning flag is set, triggering a scan through
either entry point leaves the state untouched and performs no writes: no
second pass, no collection change, no extra progress notifications. -/
theorem c7_reentrancy_guard (env : ScanEnv) (s : LauncherState)
    (h : s.scanning = true) :
    scan_games_thread env s = (s, []) ∧ refresh_games env s = (s, []) := by
  refine ⟨?_, ?_⟩
  · simp [scan_games_thread, h]
  · simp [refresh_games, h]

/-- A concrete state that is mid-scan. -/
def busyState : LauncherState :=
  { games := [⟨"Doom", "D:\\games\\doom\\doom.exe"⟩]
    favorites := []
    deleted_games := []
    filtered_games := []
    scanning := true
    progress := ["Initializing..."] }

/-- Witness for C7 on a concrete mid-scan state. -/
theorem c7_witness :
    scan_games_thread ⟨[], []⟩ busyState = (busyState, [])
    ∧ refresh_games ⟨[], []⟩ busyState = (busyState, []) :=
  c7_reentrancy_guard ⟨[], []⟩ busyState rfl

/-- Claim C1: after a full scan's reconciliation and after the favorites
view refresh, no entry whose path is recorded in the deleted set appears in
the published games list or in the surfaced favorites. -/
theorem c1_deletion_suppression (env : ScanEnv) (s : LauncherState) (e : Game)
    (hdel : e.path ∈ deletedPaths s.deleted_games) :
    e ∉ (scan_for_games env s).1.games
    ∧ e ∉ (populate_favorites_list s).1.favorites := by
  have hcont : (deletedPaths s.deleted_games).contains e.path = true := by
    simpa using hdel
  refine ⟨?_, ?_⟩
  · intro hmem
    have h1 : e ∈ removeDeleted s.deleted_games (dedupGames (rawCandidates env)) := by
      have h0 : e ∈ scanReconcile (rawCandidates env) s.deleted_games := by
        simpa [scan_for_games] using hmem
      exact mem_sortByName.mp h0
    have h2 := (List.mem_filter.mp h1).2
    rw [hcont] at h2
    simp at h2
  · intro hmem
    have h1 : e ∈ s.favorites.filter
        (fun f => !((deletedPaths s.deleted_games).contains f.path)) := by
      simpa [populate_favorites_list] using hmem
    have h2 := (List.mem_filter.mp h1).2
    rw [hcont] at h2
    simp at h2

/-- An entry the user has both favorited and deleted. -/
def gWitness : Game := ⟨"Doom", "D:\\games\\doom\\doom.exe"⟩

/-- A state whose deleted set and favorites both hold that entry. -/
def sWitness : LauncherState :=
  { games := []
    favorites := [gWitness]
    deleted_games := [gWitness]
    filtered_games := []
    scanning := false
    progress := [] }

/-- An environment that rediscovers the deleted entry via the registry. -/
def envWitness : ScanEnv := ⟨[], [gWitness]⟩

/-- Witness for C1: the deleted favorite is suppressed everywhere. -/
theorem c1_witness :
    gWitness ∉ (scan_for_games envWitness sWitness).1.games
    ∧ gWitness ∉ (populate_favorites_list sWitness).1.favorites :=
  c1_deletion_suppression envWitness sWitness gWitness (by decide)

/-- An idle launcher state with empty collections. -/
def s0 : LauncherState :=
  { games := []
    favorites := []
    deleted_games := []
    filtered_games := []
    scanning := false
    progress := [] }

/-- Claim C2: the published games list equals the spec's three-step
pipeline (first-occurrence dedup by the lowercased space-stripped name key,
deleted-path removal, case-insensitive sort), every surviving holder of a
key that an enumerated-root candidate carries is itself an enumerated-root
candidate (so enumerated roots beat the registry), and the published list is
sorted ascending by lowercased name. -/
theorem c2_reconciliation_postcondition (env : ScanEnv) (s : LauncherState) :
    (scan_for_games env s).1.games
      = sortByName (removeDeleted s.deleted_games (keepFirstByKey (rawCandidates env)))
    ∧ (∀ (k : String) (c : Game),
        (∃ a ∈ env.roots.flatMap scanRoot, dedupKey a = k) →
        c ∈ (scan_for_games env s).1.games → dedupKey c = k →
        c ∈ env.roots.flatMap scanRoot)
    ∧ (scan_for_games env s).1.games.Pairwise (fun a b => nameKeyLe a b = true) := by
  refine ⟨?_, ?_, ?_⟩
  · simp [scan_for_games, scanReconcile, keepFirstByKey_eq_dedupGames]
  · intro k c hex hmem hkc
    have h1 : c ∈ dedupGames (rawCandidates env) := by
      have h0 : c ∈ scanReconcile (rawCandidates env) s.deleted_games := by
        simpa [scan_for_games] using hmem
      exact (List.mem_filter.mp (mem_sortByName.mp h0)).1
    exact dedupAux_enum_wins (env.roots.flatMap scanRoot) env.registry [] k c hex
      (by simp) (by simpa [rawCandidates, dedupGames] using h1) hkc
  · have h := sortByName_pairwise
      (removeDeleted s.deleted_games (dedupGames (rawCandidates env)))
    simpa [scan_for_games, scanReconcile] using h

/-- An environment where a traversal candidate and a registry candidate
share the dedup key doom while having different names and paths. -/
def envC2 : ScanEnv :=
  ⟨[("D:\\games", FSTree.node [] [("DOOM", FSTree.node ["doom.exe"] [])])],
   [⟨"D O O M", "E:\\other\\doom2.exe"⟩]⟩

/-- Witness for C2: the pipeline equation holds concretely and the
enumerated-root candidate is the surviving holder of the shared key. -/
theorem c2_witness :
    (scan_for_games envC2 s0).1.games
      = sortByName (removeDeleted s0.deleted_games (keepFirstByKey (rawCandidates envC2)))
    ∧ (⟨"DOOM", "D:\\games\\DOOM\\doom.exe"⟩ : Game) ∈ envC2.roots.flatMap scanRoot := by
  have h := c2_reconciliation_postcondition envC2 s0
  refine ⟨h.1, ?_⟩
  exact h.2.1 ("doom") ⟨"DOOM", "D:\\games\\DOOM\\doom.exe"⟩
    ⟨⟨"DOOM", "D:\\games\\DOOM\\doom.exe"⟩, by decide, by decide⟩
    (by decide) (by decide)

/-- An environment whose traversal yields two names that differ only in
their separator character. -/
def envC3 : ScanEnv :=
  ⟨[("D:\\games", FSTree.node []
      [("mine-craft", FSTree.node ["minecraft.exe"] []),
       ("mine craft", FSTree.node ["minecraft.exe"] [])])],
   []⟩

/-- Counterexample to claim C3 as stated: after a full scan the published
list holds two distinct entries whose names coincide once spaces, hyphens
and underscores are all stripped, because the code's dedup key removes only
spaces. -/
theorem c3_counterexample :
    (⟨"mine craft", "D:\\games\\mine craft\\minecraft.exe"⟩ : Game)
        ∈ (scan_for_games envC3 s0).1.games
    ∧ (⟨"mine-craft", "D:\\games\\mine-craft\\minecraft.exe"⟩ : Game)
        ∈ (scan_for_games envC3 s0).1.games
    ∧ cleanName ("mine craft") = cleanName ("mine-craft")
    ∧ (⟨"mine craft", "D:\\games\\mine craft\\minecraft.exe"⟩ : Game)
        ≠ ⟨"mine-craft", "D:\\games\\mine-craft\\minecraft.exe"⟩ := by
  decide

/-- Claim C3 amended: after every full scan the published list contains no
two entries whose names are equal after lowercasing and removing spaces
only, the key actually used by the dedup step. -/
theorem c3_amended_key_uniqueness (env : ScanEnv) (s : LauncherState) :
    (scan_for_games env s).1.games.Pairwise
      (fun a b => dedupKey a ≠ dedupKey b) := by
  have h0 := dedupAux_pairwise (rawCandidates env) []
  have h1 := h0.filter
    (fun g => !((deletedPaths s.deleted_games).contains g.path))
  have h2 := ((sortByName_perm
      (removeDeleted s.deleted_games (dedupGames (rawCandidates env)))).pairwise_iff
      (fun hab h => hab h.symm)).mpr h1
  simpa [scan_for_games, scanReconcile, removeDeleted] using h2

/-- Witness for the amended C3 on the separator-variant environment. -/
theorem c3_amended_witness :
    (scan_for_games envC3 s0).1.games.Pairwise
      (fun a b => dedupKey a ≠ dedupKey b) :=
  c3_amended_key_uniqueness envC3 s0

/-- A qualifying executable placed in a directory exactly 3 levels below the
scan root. -/
def deepTree3 : FSTree :=
  .node [] [("a", .node [] [("b", .node [] [("c", .node ["minecraft.exe"] [])])])]

/-- Counterexample to claim C4 as stated: a qualifying executable located in
a directory 3 separator levels below the deep-scan root IS returned, because
os.walk emits a directory's files before the depth check prunes descent. -/
theorem c4_counterexample :
    scan_directory_deep ("C:\\g") deepTree3
      = [⟨"c", "C:\\g\\a\\b\\c\\minecraft.exe"⟩]
    ∧ countSep ("C:\\g\\a\\b\\c") - countSep ("C:\\g") = 3
    ∧ exeCandidate ("minecraft.exe") ("C:\\g\\a\\b\\c") = true := by
  decide

theorem mem_dirCandidates_of {f path : String} {files : List String}
    (hf : f ∈ files) (hq : exeCandidate f path = true) :
    (⟨get_game_name_from_path path f, path ++ "\\" ++ f⟩ : Game)
      ∈ dirCandidates path files := by
  simp only [dirCandidates]
  exact List.mem_filterMap.mpr ⟨f, hf, by rw [if_pos hq]⟩

/-- Claim C4 amended: the deep strategy returns qualifying executables in
directories at 2 and even at 3 levels below the root (files are emitted
before the depth check), it does not descend past a directory whose
separator count exceeds the root's by more than 2 (keeping that directory's
own candidates), and an executable in a directory 4 levels below the root is
not returned. -/
theorem c4_amended_depth_bound :
    (∀ (root n1 n2 f : String) (fs0 fs1 : List String),
      countSep n1 = 0 → countSep n2 = 0 →
      exeCandidate f (root ++ "\\" ++ n1 ++ "\\" ++ n2) = true →
      (⟨get_game_name_from_path (root ++ "\\" ++ n1 ++ "\\" ++ n2) f,
        root ++ "\\" ++ n1 ++ "\\" ++ n2 ++ "\\" ++ f⟩ : Game)
        ∈ scan_directory_deep root
            (.node fs0 [(n1, .node fs1 [(n2, .node [f] [])])]))
    ∧ (∀ (root n1 n2 n3 f : String) (fs0 fs1 fs2 : List String),
      countSep n1 = 0 → countSep n2 = 0 → countSep n3 = 0 →
      exeCandidate f (root ++ "\\" ++ n1 ++ "\\" ++ n2 ++ "\\" ++ n3) = true →
      (⟨get_game_name_from_path (root ++ "\\" ++ n1 ++ "\\" ++ n2 ++ "\\" ++ n3) f,
        root ++ "\\" ++ n1 ++ "\\" ++ n2 ++ "\\" ++ n3 ++ "\\" ++ f⟩ : Game)
        ∈ scan_directory_deep root
            (.node fs0 [(n1, .node fs1 [(n2, .node fs2 [(n3, .node [f] [])])])]))
    ∧ (∀ (rootSep : Nat) (path : String) (files : List String)
        (subdirs : List (String × FSTree)),
      countSep path - rootSep > 2 →
      osWalk rootSep path (.node files subdirs) = dirCandidates path files)
    ∧ (∀ (root n1 n2 n3 n4 f : String),
      countSep n1 = 0 → countSep n2 = 0 → countSep n3 = 0 → countSep n4 = 0 →
      scan_directory_deep root
        (.node []
          [(n1, .node []
            [(n2, .node []
              [(n3, .node []
                [(n4, .node [f] [])])])])]) = []) := by
  refine ⟨?_, ?_, ?_, ?_⟩
  · intro root n1 n2 f fs0 fs1 h1 h2 hq
    have e1 : countSep (root ++ "\\" ++ n1) = countSep root + 1 := by
      rw [countSep_append, countSep_append, countSep_sep, h1]
    have e2 : countSep (root ++ "\\" ++ n1 ++ "\\" ++ n2) = countSep root + 2 := by
      rw [countSep_append, countSep_append, e1, countSep_sep, h2]
    have hm := mem_dirCandidates_of (List.mem_singleton.mpr rfl) hq
    simp only [scan_directory_deep, osWalk, osWalkChildren]
    rw [if_neg (by omega : ¬ countSep root - countSep root > 2),
        if_neg (by rw [e1]; omega),
        if_neg (by rw [e2]; omega)]
    simp [List.mem_append, hm]
  · intro root n1 n2 n3 f fs0 fs1 fs2 h1 h2 h3 hq
    have e1 : countSep (root ++ "\\" ++ n1) = countSep root + 1 := by
      rw [countSep_append, countSep_append, countSep_sep, h1]
    have e2 : countSep (root ++ "\\" ++ n1 ++ "\\" ++ n2) = countSep root + 2 := by
      rw [countSep_append, countSep_append, e1, countSep_sep, h2]
    have e3 : countSep (root ++ "\\" ++ n1 ++ "\\" ++ n2 ++ "\\" ++ n3)
        = countSep root + 3 := by
      rw [countSep_append, countSep_append, e2, countSep_sep, h3]
    have hm := mem_dirCandidates_of (List.mem_singleton.mpr rfl) hq
    simp only [scan_directory_deep, osWalk, osWalkChildren]
    rw [if_neg (by omega : ¬ countSep root - countSep root > 2),
        if_neg (by rw [e1]; omega),
        if_neg (by rw [e2]; omega)]
    simp [List.mem_append, hm]
  · intro rootSep path files subdirs h
    simp [osWalk, h]
  · intro root n1 n2 n3 n4 f h1 h2 h3 h4
    have e1 : countSep (root ++ "\\" ++ n1) = countSep root + 1 := by
      rw [countSep_append, countSep_append, countSep_sep, h1]
    have e2 : countSep (root ++ "\\" ++ n1 ++ "\\" ++ n2) = countSep root + 2 := by
      rw [countSep_append, countSep_append, e1, countSep_sep, h2]
    have e3 : countSep (root ++ "\\" ++ n1 ++ "\\" ++ n2 ++ "\\" ++ n3)
        = countSep root + 3 := by
      rw [countSep_append, countSep_append, e2, countSep_sep, h3]
    simp only [scan_directory_deep, osWalk, osWalkChildren, dirCandidates,
      List.filterMap_nil]
    rw [if_neg (by omega : ¬ countSep root - countSep root > 2),
        if_neg (by rw [e1]; omega),
        if_neg (by rw [e2]; omega),
        if_pos (by rw [e3]; omega)]
    simp

/-- Witness for the amended C4 at concrete trees of depth 2, 3 and 4. -/
theorem c4_witness :
    (⟨get_game_name_from_path ("C:\\g" ++ "\\" ++ "a" ++ "\\" ++ "b") ("minecraft.exe"),
      "C:\\g" ++ "\\" ++ "a" ++ "\\" ++ "b" ++ "\\" ++ "minecraft.exe"⟩ : Game)
      ∈ scan_directory_deep ("C:\\g")
          (.node [] [("a", .node [] [("b", .node ["minecraft.exe"] [])])])
    ∧ (⟨get_game_name_from_path
          ("C:\\g" ++ "\\" ++ "a" ++ "\\" ++ "b" ++ "\\" ++ "c") ("minecraft.exe"),
        "C:\\g" ++ "\\" ++ "a" ++ "\\" ++ "b" ++ "\\" ++ "c" ++ "\\" ++ "minecraft.exe"⟩ : Game)
      ∈ scan_directory_deep ("C:\\g") deepTree3
    ∧ osWalk 1 ("C:\\g\\a\\b\\c")
        (.node ["minecraft.exe"] [("d", .node ["doom.exe"] [])])
      = dirCandidates ("C:\\g\\a\\b\\c") ["minecraft.exe"]
    ∧ scan_directory_deep ("C:\\g")
        (.node []
          [("a", .node []
            [("b", .node []
              [("c", .node []
                [("d", .node ["minecraft.exe"] [])])])])]) = [] := by
  have h := c4_amended_depth_bound
  exact ⟨h.1 ("C:\\g") "a" "b" ("minecraft.exe") [] [] (by decide) (by decide) (by decide),
    h.2.1 ("C:\\g") "a" "b" "c" ("minecraft.exe") [] [] [] (by decide) (by decide)
      (by decide) (by decide),
    h.2.2.1 1 ("C:\\g\\a\\b\\c") ["minecraft.exe"] [("d", .node ["doom.exe"] [])]
      (by decide),
    h.2.2.2 ("C:\\g") "a" "b" "c" "d" ("minecraft.exe") (by decide) (by decide)
      (by decide) (by decide)⟩

/-- Claim C5: when every admissible immediate child of the root contains at
least one qualifying name, the shallow strategy yields exactly one candidate
per admissible child: its output length equals the number of children that
pass the directory filter. -/
theorem c5_shallow_cardinality (rootPath : String) (files : List String)
    (subdirs : List (String × FSTree))
    (h : ∀ p ∈ subdirs, is_likely_game_directory p.1 = true →
      (listdirNames p.2).any (fun f => exeCandidate f (rootPath ++ "\\" ++ p.1)) = true) :
    (scan_directory_shallow rootPath (.node files subdirs)).length
      = (subdirs.filter (fun p => is_likely_game_directory p.1)).length := by
  induction subdirs with
  | nil => simp [scan_directory_shallow]
  | cons p rest ih =>
    have hrest : ∀ q ∈ rest, is_likely_game_directory q.1 = true →
        (listdirNames q.2).any (fun f => exeCandidate f (rootPath ++ "\\" ++ q.1)) = true :=
      fun q hq => h q (List.mem_cons_of_mem _ hq)
    have ihr := ih hrest
    simp only [scan_directory_shallow] at ihr ⊢
    by_cases hadm : is_likely_game_directory p.1 = true
    · have hany := h p (List.mem_cons_self _ _) hadm
      obtain ⟨f, hfmem, hfq⟩ := List.any_eq_true.mp hany
      have hfind : ((listdirNames p.2).find?
          (fun f => exeCandidate f (rootPath ++ "\\" ++ p.1))).isSome :=
        List.find?_isSome.mpr ⟨f, hfmem, hfq⟩
      obtain ⟨g, hg⟩ := Option.isSome_iff_exists.mp hfind
      have hchild : (shallowChildScan rootPath p.1 p.2).length = 1 := by
        simp [shallowChildScan, hadm, hg]
      rw [List.flatMap_cons, List.length_append, hchild, ihr]
      simp only [List.filter_cons, hadm, if_true, List.length_cons]
      omega
    · have hadmf : is_likely_game_directory p.1 = false := by simpa using hadm
      have hchild : (shallowChildScan rootPath p.1 p.2).length = 0 := by
        simp [shallowChildScan, hadmf]
      rw [List.flatMap_cons, List.length_append, hchild, ihr]
      simp only [List.filter_cons, hadmf, if_false, Bool.false_eq_true]
      omega

/-- Witness for C5: two admissible children with qualifying executables and
one inadmissible child yield exactly two candidates. -/
theorem c5_witness :
    (scan_directory_shallow ("C:\\r")
      (.node ["readme.txt"]
        [("Minecraft", .node ["minecraft.exe"] []),
         ("Discord", .node ["discord.exe"] []),
         ("Doom", .node ["doom.exe"] [])])).length
    = (([("Minecraft", FSTree.node ["minecraft.exe"] []),
        ("Discord", FSTree.node ["discord.exe"] []),
        ("Doom", FSTree.node ["doom.exe"] [])] : List (String × FSTree)).filter
          (fun p => is_likely_game_directory p.1)).length :=
  c5_shallow_cardinality ("C:\\r") ["readme.txt"]
    [("Minecraft", .node ["minecraft.exe"] []),
     ("Discord", .node ["discord.exe"] []),
     ("Doom", .node ["doom.exe"] [])]
    (by decide)

/-- A state holding one discovered, favorited game, and that game. -/
def sC8 : LauncherState :=
  { games := [⟨"Halo", "C:\\XboxGames\\Halo\\halo.exe"⟩]
    favorites := [⟨"Halo", "C:\\XboxGames\\Halo\\halo.exe"⟩]
    deleted_games := []
    filtered_games := [⟨"Halo", "C:\\XboxGames\\Halo\\halo.exe"⟩]
    scanning := false
    progress := [] }

/-- Counterexample to claim C8 as stated: a confirmed delete action also
rewrites the favorites document, so favorite/unfavorite toggles are not the
only writers. -/
theorem c8_counterexample :
    ((delete_game sC8 ⟨"Halo", "C:\\XboxGames\\Halo\\halo.exe"⟩ true).2.any
      isFavoritesWrite) = true := by
  decide

/-- Claim C8 amended: the favorites document is rewritten exactly by the
favorite/unfavorite toggle and by a confirmed delete (which prunes the
deleted path from favorites and persists the result); the read-time
favorites reconciliation, the scan entry points, a cancelled delete and a
restore never write it. -/
theorem c8_amended_persistence_frame (s : LauncherState) (g : Game)
    (env : ScanEnv) :
    (populate_favorites_list s).2 = []
    ∧ (scan_games_thread env s).2 = []
    ∧ (refresh_games env s).2 = []
    ∧ (restore_game s g).2.any isFavoritesWrite = false
    ∧ (toggle_favorite s g).2
        = [SaveEffect.saveFavorites (toggle_favorite s g).1.favorites]
    ∧ (delete_game s g true).2
        = [SaveEffect.saveDeleted (delete_game s g true).1.deleted_games,
           SaveEffect.saveFavorites (delete_game s g true).1.favorites]
    ∧ (delete_game s g false).2 = [] := by
  refine ⟨rfl, ?_, ?_, ?_, ?_, ?_, rfl⟩
  · by_cases h : s.scanning <;> simp [scan_games_thread, scan_for_games, h]
  · by_cases h : s.scanning <;>
      simp [refresh_games, scan_games_thread, scan_for_games, h]
  · simp [restore_game, isFavoritesWrite]
  · by_cases h : (s.favorites.map (fun f => f.name)).contains g.name = true
    · simp only [toggle_favorite]
      rw [if_pos h]
    · have hf : (s.favorites.map (fun f => f.name)).contains g.name = false := by
        simpa using h
      simp only [toggle_favorite]
      rw [if_neg (bool_ne_true hf)]
  · simp [delete_game]

/-- Witness for the amended C8 on the concrete favorited game. -/
theorem c8_witness :
    (populate_favorites_list sC8).2 = []
    ∧ (toggle_favorite sC8 ⟨"Halo", "C:\\XboxGames\\Halo\\halo.exe"⟩).2
        = [SaveEffect.saveFavorites
            (toggle_favorite sC8 ⟨"Halo", "C:\\XboxGames\\Halo\\halo.exe"⟩).1.favorites]
    ∧ (delete_game sC8 ⟨"Halo", "C:\\XboxGames\\Halo\\halo.exe"⟩ true).2
        = [SaveEffect.saveDeleted
            (delete_game sC8 ⟨"Halo", "C:\\XboxGames\\Halo\\halo.exe"⟩ true).1.deleted_games,
           SaveEffect.saveFavorites
            (delete_game sC8 ⟨"Halo", "C:\\XboxGames\\Halo\\halo.exe"⟩ true).1.favorites] := by
  have h := c8_amended_persistence_frame sC8
    ⟨"Halo", "C:\\XboxGames\\Halo\\halo.exe"⟩ ⟨[], []⟩
  exact ⟨h.1, h.2.2.2.2.1, h.2.2.2.2.2.1⟩

/-- Claim C10: the favorite toggle decides membership by exact name
equality: with a same-name favorite present it removes every favorite
carrying that name (whatever its path), otherwise it appends the game; this
keeps favorite names pairwise distinct, the card's star reflects any
favorite with the same name, and the favorites view suppression is by path,
not name. -/
theorem c10_name_based_favorites (s : LauncherState) (g : Game) :
    ((s.favorites.map (fun f => f.name)).contains g.name = true →
      (toggle_favorite s g).1.favorites
        = s.favorites.filter (fun f => f.name != g.name))
    ∧ ((s.favorites.map (fun f => f.name)).contains g.name = false →
      (toggle_favorite s g).1.favorites = s.favorites ++ [g])
    ∧ (s.favorites.Pairwise (fun a b => a.name ≠ b.name) →
      (toggle_favorite s g).1.favorites.Pairwise (fun a b => a.name ≠ b.name))
    ∧ (∀ f, f ∈ s.favorites → f.name = g.name → card_is_favorite s g = true)
    ∧ (populate_favorites_list s).1.favorites
        = s.favorites.filter
            (fun f => !((deletedPaths s.deleted_games).contains f.path)) := by
  refine ⟨?_, ?_, ?_, ?_, rfl⟩
  · intro h
    simp only [toggle_favorite]
    rw [if_pos h]
  · intro h
    simp only [toggle_favorite]
    rw [if_neg (bool_ne_true h)]
  · intro hp
    by_cases h : (s.favorites.map (fun f => f.name)).contains g.name = true
    · simp only [toggle_favorite, if_pos h]
      exact hp.filter _
    · have hf : (s.favorites.map (fun f => f.name)).contains g.name = false := by
        simpa using h
      simp only [toggle_favorite]
      rw [if_neg (bool_ne_true hf)]
      rw [List.pairwise_append]
      refine ⟨hp, List.pairwise_singleton _ _, ?_⟩
      intro a ha b hb
      rcases List.mem_singleton.mp hb with rfl
      intro heq
      have h2 : (s.favorites.map (fun f => f.name)).contains b.name = true := by
        have : b.name ∈ s.favorites.map (fun f => f.name) :=
          List.mem_map.mpr ⟨a, ha, heq⟩
        simpa using this
      rw [h2] at hf
      exact Bool.noConfusion hf
  · intro f hf heq
    exact List.any_eq_true.mpr ⟨f, hf, by simp [heq]⟩

/-- A state with one favorite named Doom, recorded under one path. -/
def sFav : LauncherState :=
  { games := []
    favorites := [⟨"Doom", "C:\\a\\doom.exe"⟩]
    deleted_games := []
    filtered_games := []
    scanning := false
    progress := [] }

/-- Witness for C10: toggling a same-named game with a different path
removes the favorite, and the star indicator shows lit for it. -/
theorem c10_witness :
    (toggle_favorite sFav ⟨"Doom", "D:\\b\\doom.exe"⟩).1.favorites
      = sFav.favorites.filter (fun f => f.name != ("Doom" : String))
    ∧ card_is_favorite sFav ⟨"Doom", "D:\\b\\doom.exe"⟩ = true := by
  have h := c10_name_based_favorites sFav ⟨"Doom", "D:\\b\\doom.exe"⟩
  exact ⟨h.1 (by decide), h.2.2.2.1 ⟨"Doom", "C:\\a\\doom.exe"⟩ (by decide) (by decide)⟩
